import Mathlib

/-!
Verification of the core logic of a digital-wellness journaling app
(`app.py`): the score engine (`compute_wellness_score`, `generate_tip`),
the flat-file entry store (`load_data`, `save_entry`) and the aggregator
(`get_last_n_days`, the inline leaderboard computation).

Numeric inputs are modelled as exact rationals (`ℚ`); Python's `int()`
conversion is modelled as truncation toward zero; the persisted CSV store
is modelled as a list of `Entry` records in storage order.
-/

/-- Model of `np.clip(x, lo, hi)`: `min (max x lo) hi`. -/
def npClip (x lo hi : ℚ) : ℚ := min (max x lo) hi

/-- Model of Python `int(q)`: truncation toward zero. -/
def ratTrunc (q : ℚ) : ℤ := if 0 ≤ q then q.floor else -((-q).floor)

lemma ratFloor_eq_floor (q : ℚ) : q.floor = ⌊q⌋ :=
  (Rat.floor_def' q).trans Rat.floor_def.symm

/-- `SCORE_MIN` from the config section of `app.py`. -/
def SCORE_MIN : ℚ := 0

/-- `SCORE_MAX` from the config section of `app.py`. -/
def SCORE_MAX : ℚ := 100

/-- The `sleep_score` local of `compute_wellness_score`:
`np.clip((sleep / 8.0) * 40, 0, 40)`. -/
def sleep_score (sleep : ℚ) : ℚ := npClip (sleep / 8 * 40) 0 40

/-- The `stress_score` local of `compute_wellness_score`:
`np.clip((10 - stress) / 10.0 * 30, 0, 30)`. -/
def stress_score (stress : ℚ) : ℚ := npClip ((10 - stress) / 10 * 30) 0 30

/-- The `screen_score` local of `compute_wellness_score`:
`30 if screen <= 3 else max(0, 30 - (screen - 3) * (30 / 9))`. -/
def screen_score (screen : ℚ) : ℚ :=
  if screen ≤ 3 then 30 else max 0 (30 - (screen - 3) * (30 / 9))

/-- `compute_wellness_score(sleep, screen, stress)` from `app.py`:
`int(np.clip(sleep_score + stress_score + screen_score, SCORE_MIN, SCORE_MAX))`. -/
def compute_wellness_score (sleep screen stress : ℚ) : ℤ :=
  ratTrunc (npClip (sleep_score sleep + stress_score stress + screen_score screen)
    SCORE_MIN SCORE_MAX)

/-- Model of Python `str.lower()`: lowercase every character. -/
def strLower (s : String) : String := ⟨s.data.map Char.toLower⟩

/-- `generate_tip(sleep, screen, stress, mood)` from `app.py`: a string
accumulator to which each triggered advisory fragment is appended in turn;
`mood.lower() in ["tired", "exhausted"]` is the membership test of the code. -/
def generate_tip (sleep screen stress : ℚ) (mood : String) : String :=
  let tip := ""
  let tip := if sleep < 6 then tip ++ "🛌 Try sleeping 7–8 hours. " else tip
  let tip := if screen > 8 then tip ++ "📱 Too much screen time! Reduce it. " else tip
  let tip := if stress ≥ 7 then tip ++ "😣 High stress! Try breathing exercises. " else tip
  let tip := if strLower mood == "tired" || strLower mood == "exhausted" then
    tip ++ "💤 Take a power nap. " else tip
  tip

lemma npClip_le (x lo hi : ℚ) : npClip x lo hi ≤ hi := min_le_right _ _

lemma le_npClip (x lo hi : ℚ) (h : lo ≤ hi) : lo ≤ npClip x lo hi :=
  le_min (le_trans (le_max_right _ _) le_rfl) h |>.trans_eq rfl

lemma npClip_mono (lo hi : ℚ) {x y : ℚ} (h : x ≤ y) : npClip x lo hi ≤ npClip y lo hi :=
  min_le_min (max_le_max h le_rfl) le_rfl

lemma ratTrunc_of_nonneg {q : ℚ} (h : 0 ≤ q) : ratTrunc q = ⌊q⌋ :=
  (if_pos h).trans (ratFloor_eq_floor q)

lemma ratTrunc_mono_of_nonneg {q₁ q₂ : ℚ} (h0 : 0 ≤ q₁) (h : q₁ ≤ q₂) :
    ratTrunc q₁ ≤ ratTrunc q₂ := by
  rw [ratTrunc_of_nonneg h0, ratTrunc_of_nonneg (h0.trans h)]
  exact Int.floor_mono h

/-- C1: `compute_wellness_score` is total over all rational inputs and always
returns an integer in `[0, 100]`; the bounds are attained exactly:
`compute_wellness_score 8 3 0 = 100` and `compute_wellness_score 0 24 10 = 0`. -/
theorem compute_wellness_score_total_bounded_extremes :
    (∀ sleep screen stress : ℚ,
      0 ≤ compute_wellness_score sleep screen stress ∧
      compute_wellness_score sleep screen stress ≤ 100) ∧
    compute_wellness_score 8 3 0 = 100 ∧ compute_wellness_score 0 24 10 = 0 := by
  refine ⟨fun sleep screen stress => ?_,
    by norm_num [compute_wellness_score, npClip, ratTrunc, sleep_score, stress_score,
      screen_score, SCORE_MIN, SCORE_MAX, ratFloor_eq_floor],
    by norm_num [compute_wellness_score, npClip, ratTrunc, sleep_score, stress_score,
      screen_score, SCORE_MIN, SCORE_MAX, ratFloor_eq_floor]⟩
  unfold compute_wellness_score
  have h0 : (0 : ℚ) ≤ npClip (sleep_score sleep + stress_score stress + screen_score screen)
      SCORE_MIN SCORE_MAX := le_npClip _ _ _ (by norm_num [SCORE_MIN, SCORE_MAX])
  have h100 : npClip (sleep_score sleep + stress_score stress + screen_score screen)
      SCORE_MIN SCORE_MAX ≤ 100 := npClip_le _ _ _
  rw [ratTrunc_of_nonneg h0]
  constructor
  · exact Int.le_floor.mpr (by exact_mod_cast h0)
  · have := Int.floor_mono h100
    simpa using this

lemma total_clip_nonneg (x : ℚ) : 0 ≤ npClip x SCORE_MIN SCORE_MAX := by
  have h := le_npClip x SCORE_MIN SCORE_MAX (by norm_num [SCORE_MIN, SCORE_MAX])
  simpa [SCORE_MIN] using h

lemma stress_score_antitone {s t : ℚ} (h : s ≤ t) : stress_score t ≤ stress_score s := by
  unfold stress_score
  apply npClip_mono
  have e1 : (10 - t) / 10 * 30 = 30 - 3 * t := by ring
  have e2 : (10 - s) / 10 * 30 = 30 - 3 * s := by ring
  rw [e1, e2]
  linarith

lemma screen_score_antitone {s t : ℚ} (h : s ≤ t) : screen_score t ≤ screen_score s := by
  unfold screen_score
  by_cases h1 : s ≤ 3 <;> by_cases h2 : t ≤ 3 <;> simp only [if_pos, if_neg, h1, h2, if_true,
    if_false]
  · exact le_refl _
  · apply max_le (by norm_num)
    have hp : (0:ℚ) ≤ (t - 3) * (30 / 9) := mul_nonneg (by linarith) (by norm_num)
    linarith
  · exact absurd (h.trans h2) h1
  · apply max_le_max (le_refl _)
    have e1 : (t - 3) * (30 / 9) = 10 / 3 * t - 10 := by ring
    have e2 : (s - 3) * (30 / 9) = 10 / 3 * s - 10 := by ring
    rw [e1, e2]
    linarith

/-- C7: `generate_tip` is exactly the concatenation, in the fixed order sleep,
screen, stress, mood, of the fragments whose trigger holds (`sleep < 6`,
`screen > 8`, `stress ≥ 7`, lowercased mood equal to "tired" or "exhausted");
at `(5, 9, 8, "Tired")` all four fragments appear in that order and at
`(8, 2, 1, "Happy")` the result is the empty string. -/
theorem generate_tip_fragment_concat :
    (∀ (sleep screen stress : ℚ) (mood : String),
      generate_tip sleep screen stress mood =
        (if sleep < 6 then "🛌 Try sleeping 7–8 hours. " else "") ++
        (if screen > 8 then "📱 Too much screen time! Reduce it. " else "") ++
        (if stress ≥ 7 then "😣 High stress! Try breathing exercises. " else "") ++
        (if strLower mood = "tired" ∨ strLower mood = "exhausted" then
          "💤 Take a power nap. " else "")) ∧
    generate_tip 5 9 8 "Tired" =
      "🛌 Try sleeping 7–8 hours. " ++ "📱 Too much screen time! Reduce it. " ++
      "😣 High stress! Try breathing exercises. " ++ "💤 Take a power nap. " ∧
    generate_tip 8 2 1 "Happy" = "" := by
  have key : ∀ (sleep screen stress : ℚ) (mood : String),
      generate_tip sleep screen stress mood =
        (if sleep < 6 then "🛌 Try sleeping 7–8 hours. " else "") ++
        (if screen > 8 then "📱 Too much screen time! Reduce it. " else "") ++
        (if stress ≥ 7 then "😣 High stress! Try breathing exercises. " else "") ++
        (if strLower mood = "tired" ∨ strLower mood = "exhausted" then
          "💤 Take a power nap. " else "") := by
    intro sleep screen stress mood
    simp only [generate_tip]
    by_cases h1 : sleep < 6 <;> by_cases h2 : screen > 8 <;> by_cases h3 : stress ≥ 7 <;>
      by_cases h4 : strLower mood = "tired" ∨ strLower mood = "exhausted" <;>
      simp [h1, h2, h3, h4, String.empty_append, String.append_empty, String.append_assoc]
  refine ⟨key, ?_, ?_⟩
  · rw [key]
    norm_num
    decide
  · rw [key]
    norm_num
    decide

/-- C8: the sleep sub-component `clamp(sleep/8 * 40, 0, 40)` of the wellness
score is monotonically non-decreasing in `sleep_hours` up to 8 hours and is
constant at the 40-point cap for `sleep_hours ≥ 8` (within `[0, 12]`). -/
theorem sleep_score_monotone_then_capped :
    (∀ a b : ℚ, 0 ≤ a → a ≤ b → b ≤ 8 → sleep_score a ≤ sleep_score b) ∧
    (∀ a : ℚ, 8 ≤ a → a ≤ 12 → sleep_score a = 40) := by
  constructor
  · intro a b _ hab _
    unfold sleep_score
    apply npClip_mono
    have e1 : a / 8 * 40 = 5 * a := by ring
    have e2 : b / 8 * 40 = 5 * b := by ring
    rw [e1, e2]
    linarith
  · intro a h8 _
    unfold sleep_score npClip
    have e : a / 8 * 40 = 5 * a := by ring
    have h40 : (40:ℚ) ≤ a / 8 * 40 := by rw [e]; linarith
    rw [max_eq_left (by linarith : (0:ℚ) ≤ a / 8 * 40), min_eq_right h40]

/-- C8 witness: concrete instances of monotonicity and the cap. -/
theorem sleep_score_monotone_then_capped_witness :
    sleep_score 2 ≤ sleep_score 5 ∧ sleep_score 9 = 40 :=
  ⟨sleep_score_monotone_then_capped.1 2 5 (by norm_num) (by norm_num) (by norm_num),
   sleep_score_monotone_then_capped.2 9 (by norm_num) (by norm_num)⟩

/-- C9: with sleep and screen fixed, `compute_wellness_score` is monotonically
non-increasing in the stress level on `[0, 10]`. -/
theorem compute_wellness_score_stress_antitone :
    ∀ (sleep screen s1 s2 : ℚ), 0 ≤ s1 → s1 ≤ s2 → s2 ≤ 10 →
      compute_wellness_score sleep screen s2 ≤ compute_wellness_score sleep screen s1 := by
  intro sleep screen s1 s2 _ h _
  unfold compute_wellness_score
  refine ratTrunc_mono_of_nonneg (total_clip_nonneg _) (npClip_mono _ _ ?_)
  exact add_le_add_right (add_le_add_left (stress_score_antitone h) _) _

/-- C9 witness: a concrete instance. -/
theorem compute_wellness_score_stress_antitone_witness :
    compute_wellness_score 7 4 8 ≤ compute_wellness_score 7 4 2 :=
  compute_wellness_score_stress_antitone 7 4 2 8 (by norm_num) (by norm_num) (by norm_num)

/-- C10: the screen sub-component is 30 points for `screen ≤ 3`, decays
linearly as `30 - (screen-3)*(30/9)` on `(3, 12)`, and is 0 for
`screen ≥ 12`; with sleep and stress fixed, `compute_wellness_score` is
monotonically non-increasing in screen time. -/
theorem compute_wellness_score_screen_antitone :
    (∀ c : ℚ, c ≤ 3 → screen_score c = 30) ∧
    (∀ c : ℚ, 3 < c → c < 12 → screen_score c = 30 - (c - 3) * (30 / 9)) ∧
    (∀ c : ℚ, 12 ≤ c → screen_score c = 0) ∧
    (∀ sleep stress c1 c2 : ℚ, c1 ≤ c2 →
      compute_wellness_score sleep c2 stress ≤ compute_wellness_score sleep c1 stress) := by
  refine ⟨fun c h => if_pos h, fun c h3 h12 => ?_, fun c h12 => ?_, fun sleep stress c1 c2 h => ?_⟩
  · unfold screen_score
    rw [if_neg (not_le.mpr h3)]
    apply max_eq_right
    have e : (c - 3) * (30 / 9) = 10 / 3 * c - 10 := by ring
    rw [e]
    linarith
  · unfold screen_score
    rw [if_neg (by linarith : ¬ c ≤ 3)]
    apply max_eq_left
    have e : (c - 3) * (30 / 9) = 10 / 3 * c - 10 := by ring
    rw [e]
    linarith
  · unfold compute_wellness_score
    refine ratTrunc_mono_of_nonneg (total_clip_nonneg _) (npClip_mono _ _ ?_)
    exact add_le_add_left (screen_score_antitone h) _

/-- C10 witness: concrete instances of the three regimes and of monotonicity. -/
theorem compute_wellness_score_screen_antitone_witness :
    screen_score 2 = 30 ∧ screen_score 6 = 30 - (6 - 3) * (30 / 9) ∧ screen_score 13 = 0 ∧
    compute_wellness_score 7 9 5 ≤ compute_wellness_score 7 4 5 :=
  ⟨compute_wellness_score_screen_antitone.1 2 (by norm_num),
   compute_wellness_score_screen_antitone.2.1 6 (by norm_num) (by norm_num),
   compute_wellness_score_screen_antitone.2.2.1 13 (by norm_num),
   compute_wellness_score_screen_antitone.2.2.2 7 5 4 9 (by norm_num)⟩

/-- One row of the persisted store `wellness_data.csv`, with the fixed column
schema of `ensure_datafile`; dates are modelled as integer day numbers. -/
structure Entry where
  username : String
  date : ℤ
  sleep_hours : ℚ
  screen_time : ℚ
  stress_level : ℚ
  mood : String
  wellness_score : ℤ
  tip : String
  journal : String
  deriving DecidableEq

/-- The duplicate key test of the store: equality on `(username, date)`. -/
def sameKey (a b : Entry) : Bool := a.username == b.username && a.date == b.date

/-- Bool test that `e` has key `(u, d)`. -/
def keyIs (u : String) (d : ℤ) (e : Entry) : Bool := e.username == u && e.date == d

/-- pandas `drop_duplicates(subset=["username", "date"], keep="last")`: a row
is kept exactly when no later row has the same key, and kept rows stay in
storage order. -/
def dropDuplicatesKeepLast : List Entry → List Entry
  | [] => []
  | e :: rest =>
    if rest.any (sameKey e) then dropDuplicatesKeepLast rest
    else e :: dropDuplicatesKeepLast rest

/-- `load_data()` from `app.py`, as a function of the raw persisted rows:
read all rows and drop duplicate `(username, date)` keys keeping the last. -/
def load_data (store : List Entry) : List Entry := dropDuplicatesKeepLast store

/-- `save_entry(entry)` from `app.py`, as a function of the raw persisted
rows: load the store, reject the entry if a loaded row has its key, else
persist the loaded rows with the entry appended. Returns the success flag
and the rows persisted after the call. -/
def save_entry (store : List Entry) (entry : Entry) : Bool × List Entry :=
  let df := load_data store
  if df.any (fun row => sameKey row entry) then (false, store)
  else (true, df ++ [entry])

lemma sameKey_iff {a b : Entry} : sameKey a b = true ↔ a.username = b.username ∧ a.date = b.date := by
  simp [sameKey]

lemma keyIs_iff {u : String} {d : ℤ} {e : Entry} :
    keyIs u d e = true ↔ e.username = u ∧ e.date = d := by
  simp [keyIs]

lemma keyIs_of_sameKey {u : String} {d : ℤ} {e x : Entry} (he : keyIs u d e = true)
    (hx : sameKey e x = true) : keyIs u d x = true := by
  rw [keyIs_iff] at he ⊢
  rw [sameKey_iff] at hx
  exact ⟨hx.1 ▸ he.1, hx.2 ▸ he.2⟩

lemma sameKey_of_keyIs {u : String} {d : ℤ} {e x : Entry} (he : keyIs u d e = true)
    (hx : keyIs u d x = true) : sameKey e x = true := by
  rw [keyIs_iff] at he hx
  rw [sameKey_iff]
  exact ⟨he.1.trans hx.1.symm, he.2.trans hx.2.symm⟩

lemma getLast?_cons_of_ne_nil {α : Type} {l : List α} (h : l ≠ []) (a : α) :
    (a :: l).getLast? = l.getLast? := by
  cases l with
  | nil => exact absurd rfl h
  | cons b t => exact List.getLast?_cons_cons

lemma dropDup_filter (u : String) (d : ℤ) :
    ∀ store : List Entry, (dropDuplicatesKeepLast store).filter (keyIs u d) =
      ((store.filter (keyIs u d)).getLast?).toList
  | [] => rfl
  | e :: rest => by
    have ih := dropDup_filter u d rest
    by_cases ha : rest.any (sameKey e) = true
    · rw [show dropDuplicatesKeepLast (e :: rest) = dropDuplicatesKeepLast rest from
        if_pos ha]
      by_cases hp : keyIs u d e = true
      · obtain ⟨x, hxm, hxk⟩ := List.any_eq_true.mp ha
        have hxp : keyIs u d x = true := keyIs_of_sameKey hp hxk
        have hne : rest.filter (keyIs u d) ≠ [] :=
          List.ne_nil_of_mem (List.mem_filter.mpr ⟨hxm, hxp⟩)
        rw [ih, List.filter_cons_of_pos hp, getLast?_cons_of_ne_nil hne]
      · rw [ih, List.filter_cons_of_neg (by simpa using hp)]
    · rw [show dropDuplicatesKeepLast (e :: rest) =
        e :: dropDuplicatesKeepLast rest from if_neg ha]
      by_cases hp : keyIs u d e = true
      · have hnil : rest.filter (keyIs u d) = [] := by
          rw [List.filter_eq_nil_iff]
          intro x hxm
          intro hxp
          exact ha (List.any_eq_true.mpr ⟨x, hxm, sameKey_of_keyIs hp hxp⟩)
        rw [List.filter_cons_of_pos hp, List.filter_cons_of_pos hp, ih, hnil]
        rfl
      · rw [List.filter_cons_of_neg (by simpa using hp),
          List.filter_cons_of_neg (by simpa using hp), ih]

lemma mem_dropDup {x : Entry} : ∀ {l : List Entry}, x ∈ dropDuplicatesKeepLast l → x ∈ l
  | [], h => by simp [dropDuplicatesKeepLast] at h
  | e :: rest, h => by
    by_cases ha : rest.any (sameKey e) = true
    · rw [show dropDuplicatesKeepLast (e :: rest) = dropDuplicatesKeepLast rest from
        if_pos ha] at h
      exact List.mem_cons_of_mem e (mem_dropDup h)
    · rw [show dropDuplicatesKeepLast (e :: rest) =
        e :: dropDuplicatesKeepLast rest from if_neg ha] at h
      rcases List.mem_cons.mp h with h | h
      · exact h ▸ List.mem_cons_self x rest
      · exact List.mem_cons_of_mem e (mem_dropDup h)

lemma dropDup_pairwise :
    ∀ l : List Entry, (dropDuplicatesKeepLast l).Pairwise (fun a b => sameKey a b = false)
  | [] => List.Pairwise.nil
  | e :: rest => by
    have ih := dropDup_pairwise rest
    by_cases ha : rest.any (sameKey e) = true
    · rw [show dropDuplicatesKeepLast (e :: rest) = dropDuplicatesKeepLast rest from
        if_pos ha]
      exact ih
    · rw [show dropDuplicatesKeepLast (e :: rest) =
        e :: dropDuplicatesKeepLast rest from if_neg ha]
      refine List.Pairwise.cons (fun b hb => ?_) ih
      have hbm : b ∈ rest := mem_dropDup hb
      rcases Bool.eq_false_or_eq_true (sameKey e b) with h | h
      · exact absurd (List.any_eq_true.mpr ⟨b, hbm, h⟩) ha
      · exact h

/-- C3: `load_data` returns rows whose `(username, date)` keys are pairwise
distinct, and for every key the rows of that key in the result are exactly
the last row of that key in storage order. -/
theorem load_data_dedup_keeps_last (store : List Entry) (u : String) (d : ℤ) :
    (load_data store).Pairwise (fun a b => sameKey a b = false) ∧
    (load_data store).filter (keyIs u d) = ((store.filter (keyIs u d)).getLast?).toList :=
  ⟨dropDup_pairwise store, dropDup_filter u d store⟩

lemma exists_sameKey_dropDup (e : Entry) :
    ∀ l : List Entry, (dropDuplicatesKeepLast l).any (fun x => sameKey x e) =
      l.any (fun x => sameKey x e)
  | [] => rfl
  | e' :: rest => by
    have ih := exists_sameKey_dropDup e rest
    by_cases ha : rest.any (sameKey e') = true
    · rw [show dropDuplicatesKeepLast (e' :: rest) = dropDuplicatesKeepLast rest from
        if_pos ha, ih]
      rcases Bool.eq_false_or_eq_true (sameKey e' e) with h | h
      · obtain ⟨x, hxm, hxk⟩ := List.any_eq_true.mp ha
        have hxe : sameKey x e = true := by
          rw [sameKey_iff] at h hxk ⊢
          exact ⟨hxk.1.symm.trans h.1, hxk.2.symm.trans h.2⟩
        have hrest : rest.any (fun x => sameKey x e) = true :=
          List.any_eq_true.mpr ⟨x, hxm, hxe⟩
        simp [List.any_cons, hrest, h]
      · simp [List.any_cons, h]
    · rw [show dropDuplicatesKeepLast (e' :: rest) =
        e' :: dropDuplicatesKeepLast rest from if_neg ha]
      simp [List.any_cons, ih]

/-- C2: if the current store already holds a row with `entry`'s
`(username, date)` key then `save_entry` returns `false` and the persisted
rows are unchanged; otherwise it returns `true` and persists the loaded
store snapshot with `entry` appended. -/
theorem save_entry_rejects_duplicate_else_appends (store : List Entry) (entry : Entry) :
    (store.any (fun x => sameKey x entry) = true →
      save_entry store entry = (false, store)) ∧
    (store.any (fun x => sameKey x entry) = false →
      (save_entry store entry).1 = true ∧
      (save_entry store entry).2 = load_data store ++ [entry]) := by
  have hb : (load_data store).any (fun x => sameKey x entry) =
      store.any (fun x => sameKey x entry) := exists_sameKey_dropDup entry store
  constructor
  · intro h
    simp only [save_entry]
    rw [hb, h]
    simp
  · intro h
    simp only [save_entry]
    rw [hb, h]
    simp

/-- A sample entry used to instantiate hypotheses at concrete inputs. -/
def entryA : Entry := ⟨"alice", 0, 8, 3, 0, "Happy", 100, "", ""⟩

/-- C2 witness: concrete duplicate rejection and concrete successful append. -/
theorem save_entry_rejects_duplicate_else_appends_witness :
    save_entry [entryA] entryA = (false, [entryA]) ∧
    ((save_entry [] entryA).1 = true ∧ (save_entry [] entryA).2 = load_data [] ++ [entryA]) :=
  ⟨(save_entry_rejects_duplicate_else_appends [entryA] entryA).1 (by decide),
   (save_entry_rejects_duplicate_else_appends [] entryA).2 (by decide)⟩

/-- Ascending order on entries by date, the sort key of `get_last_n_days`. -/
def dateLe (a b : Entry) : Prop := a.date ≤ b.date

instance : DecidableRel dateLe := fun a b => inferInstanceAs (Decidable (a.date ≤ b.date))

instance : IsTotal Entry dateLe := ⟨fun a b => le_total a.date b.date⟩

instance : IsTrans Entry dateLe := ⟨fun _ _ _ h1 h2 => le_trans h1 h2⟩

/-- `get_last_n_days(df, n, username)` from `app.py`, with the current day
passed explicitly: filter to the username when one is given and non-empty
(Python truthiness of the default `None` and of `""`), keep rows with
`date_only >= today - (n-1)`, sort ascending by date, take the last `n`. -/
def get_last_n_days (df : List Entry) (n : ℕ) (username : Option String) (today : ℤ) :
    List Entry :=
  let df_user := match username with
    | none => df
    | some u => if u == "" then df else df.filter (fun e => e.username == u)
  let start := today - ((n : ℤ) - 1)
  let filtered := df_user.filter (fun e => decide (start ≤ e.date))
  let sorted := filtered.insertionSort dateLe
  sorted.drop (sorted.length - n)

/-- C4 counterexample: an entry dated 5 days after "today" is returned by
`get_last_n_days`, so a returned date need not lie in `[today-(n-1), today]`. -/
theorem get_last_n_days_future_date_counterexample :
    ¬ (∀ e ∈ get_last_n_days [⟨"alice", 105, 8, 3, 0, "Happy", 100, "", ""⟩]
        7 (some "alice") 100, 100 - ((7:ℤ) - 1) ≤ e.date ∧ e.date ≤ 100) := by
  decide

/-- C4 (amended): `get_last_n_days` returns at most `n` rows, sorted ascending
by date, and every returned date is at least `today - (n-1)`; no upper date
bound is enforced, so dates after `today` may also be returned. -/
theorem get_last_n_days_at_most_n_sorted_lower_bounded (df : List Entry) (n : ℕ)
    (username : Option String) (today : ℤ) (hn : 1 ≤ n) :
    (get_last_n_days df n username today).length ≤ n ∧
    List.Sorted dateLe (get_last_n_days df n username today) ∧
    ∀ e ∈ get_last_n_days df n username today, today - ((n : ℤ) - 1) ≤ e.date := by
  simp only [get_last_n_days]
  set df_user := (match username with
    | none => df
    | some u => if u == "" then df else df.filter (fun e => e.username == u)) with hdf
  set filtered := df_user.filter (fun e => decide (today - ((n : ℤ) - 1) ≤ e.date)) with hf
  set sorted := filtered.insertionSort dateLe with hs
  refine ⟨?_, ?_, ?_⟩
  · rw [List.length_drop]
    omega
  · exact List.Pairwise.sublist (List.drop_sublist _ _) (List.sorted_insertionSort dateLe filtered)
  · intro e he
    have h1 : e ∈ sorted := List.mem_of_mem_drop he
    have h2 : e ∈ filtered := ((List.perm_insertionSort dateLe filtered).mem_iff).mp h1
    exact of_decide_eq_true (List.mem_filter.mp h2).2

/-- A second sample entry, dated on "today". -/
def entryB : Entry := ⟨"alice", 100, 7, 4, 2, "Tired", 80, "", ""⟩

/-- C4 witness: the amended bounds hold at a concrete store and window. -/
theorem get_last_n_days_at_most_n_sorted_lower_bounded_witness :
    (get_last_n_days [entryB] 7 (some "alice") 100).length ≤ 7 ∧
    List.Sorted dateLe (get_last_n_days [entryB] 7 (some "alice") 100) ∧
    100 - ((7:ℤ) - 1) ≤ entryB.date :=
  ⟨(get_last_n_days_at_most_n_sorted_lower_bounded [entryB] 7 (some "alice") 100
      (by norm_num)).1,
   (get_last_n_days_at_most_n_sorted_lower_bounded [entryB] 7 (some "alice") 100
      (by norm_num)).2.1,
   (get_last_n_days_at_most_n_sorted_lower_bounded [entryB] 7 (some "alice") 100
      (by norm_num)).2.2 entryB (by decide)⟩

/-- One row of the grouped score table `df_score`: a username and its mean
wellness score over the filtered period. -/
structure ScoreRow where
  username : String
  score : ℚ
  deriving DecidableEq

/-- One rendered leaderboard row: username, mean score, rank and medal. -/
structure LBRow where
  username : String
  score : ℚ
  rank : ℕ
  medal : String
  deriving DecidableEq

/-- The leaderboard type selector (`df_score_type`). -/
inductive Period where
  | Daily
  | Weekly
  deriving DecidableEq

/-- The period filter of the leaderboard section: Daily keeps rows dated
today, Weekly keeps rows dated in `[today - 6, today]`. -/
def filterPeriod (rows : List Entry) (p : Period) (today : ℤ) : List Entry :=
  match p with
  | Period.Daily => rows.filter (fun e => e.date == today)
  | Period.Weekly =>
    rows.filter (fun e => decide (today - 6 ≤ e.date) && decide (e.date ≤ today))

/-- The group mean of `wellness_score` for one username. -/
def meanScore (rows : List Entry) (u : String) : ℚ :=
  let grp := rows.filter (fun e => e.username == u)
  (grp.map (fun e => (e.wellness_score : ℚ))).sum / grp.length

/-- `groupby("username", as_index=False)["wellness_score"].mean()`: one row
per distinct username (group keys sorted ascending, pandas `sort=True`)
carrying the group's mean score. -/
def groupMeanScores (rows : List Entry) : List ScoreRow :=
  ((rows.map Entry.username).dedup.insertionSort (· ≤ ·)).map
    (fun u => ScoreRow.mk u (meanScore rows u))

/-- Descending order on grouped rows by mean score, the sort key of
`sort_values("wellness_score", ascending=False)`. -/
def scoreGe (a b : ScoreRow) : Prop := b.score ≤ a.score

instance : DecidableRel scoreGe := fun a b => inferInstanceAs (Decidable (b.score ≤ a.score))

instance : IsTotal ScoreRow scoreGe := ⟨fun a b => le_total b.score a.score⟩

instance : IsTrans ScoreRow scoreGe := ⟨fun _ _ _ h1 h2 => le_trans h2 h1⟩

/-- The medal column: `["🥇","🥈","🥉"][r-1] if r <= 3 else ""`. -/
def medalFor (r : ℕ) : String :=
  if r ≤ 3 then ["🥇", "🥈", "🥉"].getD (r - 1) "" else ""

/-- `df_score["Rank"] = df_score.index + 1` together with the medal column:
assign consecutive ranks starting at `r` down the sorted rows. -/
def assignRanks : ℕ → List ScoreRow → List LBRow
  | _, [] => []
  | r, s :: rest => LBRow.mk s.username s.score r (medalFor r) :: assignRanks (r + 1) rest

/-- The leaderboard section of `app.py` as a function: filter by period,
group by username with mean score, sort descending by score, rank from 1. -/
def leaderboard (rows : List Entry) (p : Period) (today : ℤ) : List LBRow :=
  assignRanks 1 ((groupMeanScores (filterPeriod rows p today)).insertionSort scoreGe)

lemma assignRanks_length : ∀ (r : ℕ) (l : List ScoreRow), (assignRanks r l).length = l.length
  | _, [] => rfl
  | r, s :: rest => by
    simp only [assignRanks, List.length_cons]
    rw [assignRanks_length (r + 1) rest]

lemma assignRanks_map_rank : ∀ (r : ℕ) (l : List ScoreRow),
    (assignRanks r l).map LBRow.rank = List.range' r (assignRanks r l).length
  | _, [] => rfl
  | r, s :: rest => by
    simp only [assignRanks, List.map_cons, List.length_cons, List.range']
    rw [assignRanks_map_rank (r + 1) rest]

lemma assignRanks_score_mem {b : LBRow} :
    ∀ {r : ℕ} {l : List ScoreRow}, b ∈ assignRanks r l → ∃ s ∈ l, b.score = s.score := by
  intro r l
  induction l generalizing r with
  | nil => intro h; simp [assignRanks] at h
  | cons s rest ih =>
    intro h
    rcases List.mem_cons.mp h with h | h
    · exact ⟨s, List.mem_cons_self s rest, by rw [h]⟩
    · obtain ⟨s', hm, hs⟩ := ih h
      exact ⟨s', List.mem_cons_of_mem s hm, hs⟩

lemma assignRanks_pairwise :
    ∀ {r : ℕ} {l : List ScoreRow}, l.Pairwise scoreGe →
      (assignRanks r l).Pairwise (fun a b => b.score ≤ a.score) := by
  intro r l
  induction l generalizing r with
  | nil => intro _; exact List.Pairwise.nil
  | cons s rest ih =>
    intro h
    rcases List.pairwise_cons.mp h with ⟨hhead, htail⟩
    refine List.Pairwise.cons (fun b hb => ?_) (ih htail)
    obtain ⟨s', hm, hs⟩ := assignRanks_score_mem hb
    rw [hs]
    exact hhead s' hm

lemma assignRanks_medal {b : LBRow} :
    ∀ {r : ℕ} {l : List ScoreRow}, b ∈ assignRanks r l → b.medal = medalFor b.rank := by
  intro r l
  induction l generalizing r with
  | nil => intro h; simp [assignRanks] at h
  | cons s rest ih =>
    intro h
    rcases List.mem_cons.mp h with h | h
    · rw [h]
    · exact ih h

lemma assignRanks_rank_ge {b : LBRow} :
    ∀ {r : ℕ} {l : List ScoreRow}, b ∈ assignRanks r l → r ≤ b.rank := by
  intro r l
  induction l generalizing r with
  | nil => intro h; simp [assignRanks] at h
  | cons s rest ih =>
    intro h
    rcases List.mem_cons.mp h with h | h
    · rw [h]
    · exact Nat.le_of_succ_le (ih h)

lemma medalFor_chain {r : ℕ} (hr : 1 ≤ r) :
    medalFor r = if r = 1 then "🥇" else if r = 2 then "🥈" else if r = 3 then "🥉" else "" := by
  by_cases h1 : r = 1
  · subst h1; rfl
  by_cases h2 : r = 2
  · subst h2; rfl
  by_cases h3 : r = 3
  · subst h3; rfl
  have hgt : ¬ r ≤ 3 := by omega
  simp [medalFor, h1, h2, h3, hgt]

/-- C5: leaderboard ranks are exactly `1..K` in order, the rows are in
descending mean-score order, medals are gold, silver, bronze for ranks
1, 2, 3 and empty otherwise, and an empty filtered entry set yields an
empty leaderboard. -/
theorem leaderboard_ranks_medals_order (rows : List Entry) (p : Period) (today : ℤ) :
    ((leaderboard rows p today).map LBRow.rank =
      List.range' 1 (leaderboard rows p today).length) ∧
    (leaderboard rows p today).Pairwise (fun a b => b.score ≤ a.score) ∧
    (∀ row ∈ leaderboard rows p today,
      row.medal = if row.rank = 1 then "🥇" else if row.rank = 2 then "🥈"
        else if row.rank = 3 then "🥉" else "") ∧
    (filterPeriod rows p today = [] → leaderboard rows p today = []) := by
  refine ⟨?_, ?_, fun row hrow => ?_, fun h => ?_⟩
  · rw [leaderboard, assignRanks_map_rank]
  · exact assignRanks_pairwise
      (List.sorted_insertionSort scoreGe (groupMeanScores (filterPeriod rows p today)))
  · rw [assignRanks_medal hrow, medalFor_chain (assignRanks_rank_ge hrow)]
  · unfold leaderboard
    rw [h]
    rfl

/-- A third sample entry, for the leaderboard. -/
def entryC : Entry := ⟨"carol", 50, 8, 3, 0, "Happy", 80, "", ""⟩

/-- C5 witness: on a concrete store the single leaderboard row has rank 1 and
the gold medal, and the empty store yields an empty leaderboard. -/
theorem leaderboard_ranks_medals_order_witness :
    (LBRow.mk "carol" 80 1 "🥇").medal = "🥇" ∧ leaderboard [] Period.Daily 0 = [] :=
  ⟨by
    have hlb : leaderboard [entryC] Period.Daily 50 = [LBRow.mk "carol" 80 1 "🥇"] := by
      norm_num [leaderboard, filterPeriod, groupMeanScores, meanScore, assignRanks,
        medalFor, entryC]
    have h := (leaderboard_ranks_medals_order [entryC] Period.Daily 50).2.2.1
      (LBRow.mk "carol" 80 1 "🥇") (by rw [hlb]; exact List.mem_singleton_self _)
    exact h.trans (by norm_num),
   (leaderboard_ranks_medals_order [] Period.Daily 0).2.2.2 rfl⟩
